import Mathlib

/-!
Verification development for the `monoxity.db` key-value wrapper
(`src/src/index.ts`, class `MonoxityDB`).

The wrapper stores rows `(key TEXT PRIMARY KEY, value TEXT)` in one SQLite
table.  Every public method is a single parameterized SQL statement plus JSON
encode/decode at the boundary, guarded by a readiness flag.

Shallow embedding used here:

* JS values that can travel through `JSON.stringify`/`JSON.parse` are the
  inductive `Json` below.  JS numbers are modelled as integers (the claims
  under scrutiny do not exercise fractional numbers), JS strings as `List Char`.
* The SQLite table is a list of rows `(key, serialized-value)` in rowid order.
  `INSERT OR REPLACE` removes the conflicting row and appends the fresh row at
  the end, which is how SQLite assigns the new rowid.
* Each method of the TS class becomes a Lean function from the store state
  (and the inputs) to a result plus the next state.  A JS `throw` / rejected
  promise is the `JsResult.exn` constructor; a normal completion is
  `JsResult.ret`.  Methods whose SQL statement can be rejected by the engine
  take an extra `Bool` argument saying whether the engine accepts the
  statement; a method that wraps the call in `.catch(() => null)` turns a
  rejection into a falsy result, a method without `.catch` propagates it as
  `JsResult.exn .engine`.  Read statements (`SELECT`) are modelled as always
  answered by the engine; none of the claims concerns read-side I/O failures.
  One read-side caveat is kept: `getAll` / `getFirst` splice their filter
  into the SQL text unescaped, so a quote-bearing filter no longer issues
  the intended query — see `applyFilter`.
* `JSON.stringify` / `JSON.parse` are external runtime functions; they are
  modelled by the concrete codec `Json.enc` / `Json.parse` below, faithful to
  the JSON grammar on the image of `Json.enc` (control characters inside
  strings are kept verbatim rather than `\u`-escaped, and the reader accepts
  exactly the whitespace-free form the writer emits; neither difference is
  observable through the wrapper, which only ever decodes its own encodings).
* JS strict equality (`===`, used by `Array.prototype.indexOf`) and the
  `SameValueZero` equality of `Set` compare primitives by value and objects by
  reference.  Every element handed to them by `push`/`pull` is either freshly
  allocated by `JSON.parse` or the caller's own argument, so two non-primitive
  values are never identical: `jsEq` below returns structural equality on
  primitives and `false` whenever either side is an array or an object.
-/

/-- JS strings are sequences of characters. -/
abbrev Str := List Char

/-- A JSON-serializable JS value: the payload type of the store.
Numbers are modelled as integers, object members as an ordered list of
key-value pairs (JS objects preserve insertion order for string keys). -/
inductive Json where
  | null
  | bool (b : Bool)
  | num (n : Int)
  | str (s : Str)
  | arr (elems : List Json)
  | obj (members : List (Str × Json))

mutual

/-- Structural (deep) equality test on `Json`. -/
def Json.beq : Json → Json → Bool
  | .null, .null => true
  | .bool a, .bool b => a = b
  | .num a, .num b => a = b
  | .str a, .str b => a = b
  | .arr a, .arr b => beqElems a b
  | .obj a, .obj b => beqMembers a b
  | _, _ => false

/-- Deep equality on JSON element lists. -/
def beqElems : List Json → List Json → Bool
  | x :: xs, y :: ys => Json.beq x y && beqElems xs ys
  | [], [] => true
  | _, _ => false

/-- Deep equality on JSON member lists. -/
def beqMembers : List (Str × Json) → List (Str × Json) → Bool
  | (k, v) :: xs, (k2, v2) :: ys => k = k2 && Json.beq v v2 && beqMembers xs ys
  | [], [] => true
  | _, _ => false

end

/-- Number of occurrences of `v` in `l`, occurrences counted by deep
equality (`Json.beq`). -/
def countJs (l : List Json) (v : Json) : Nat :=
  match l with
  | [] => 0
  | x :: t => (if Json.beq x v then 1 else 0) + countJs t v

/-- Primitive JS values (`null`, booleans, numbers, strings) are compared by
value by `===` and by `Set`; arrays and objects are compared by reference. -/
def Json.isPrim : Json → Bool
  | .arr _ => false
  | .obj _ => false
  | _ => true

/-- JS strict equality between a freshly parsed element and another value in
the `push`/`pull` data path: value equality on primitives, `false` whenever
either side is an array or object (distinct heap references). -/
def jsEq (a b : Json) : Bool := a.isPrim && b.isPrim && Json.beq a b

/- ### The JSON codec (model of `JSON.stringify` / `JSON.parse`) -/

/-- Decimal digit character for a digit value below ten. -/
def digitChar (d : Nat) : Char :=
  if d = 0 then '0' else if d = 1 then '1' else if d = 2 then '2'
  else if d = 3 then '3' else if d = 4 then '4' else if d = 5 then '5'
  else if d = 6 then '6' else if d = 7 then '7' else if d = 8 then '8'
  else '9'

/-- Digit value of a decimal digit character. -/
def digitVal (c : Char) : Nat :=
  if c = '1' then 1 else if c = '2' then 2 else if c = '3' then 3
  else if c = '4' then 4 else if c = '5' then 5 else if c = '6' then 6
  else if c = '7' then 7 else if c = '8' then 8 else if c = '9' then 9
  else 0

/-- Decides whether a character is a decimal digit. -/
def isDigitCh (c : Char) : Bool :=
  c = '0' || c = '1' || c = '2' || c = '3' || c = '4' || c = '5' ||
  c = '6' || c = '7' || c = '8' || c = '9'

/-- Decimal digits of `n`, most significant first; fuel-driven so that the
definition is structural and reduces in the kernel. -/
def natDigsF : Nat → Nat → List Nat
  | 0, _ => []
  | fuel + 1, n => if n < 10 then [n] else natDigsF fuel (n / 10) ++ [n % 10]

/-- Decimal digits of `n`, most significant first. -/
def natDigs (n : Nat) : List Nat := natDigsF (n + 1) n

/-- Decimal text of a natural number. -/
def natChars (n : Nat) : Str := (natDigs n).map digitChar

/-- Numeric value of a most-significant-first digit list. -/
def valOfDigits (ds : List Nat) : Nat := ds.foldl (fun a d => 10 * a + d) 0

/-- Decimal text of an integer, as printed by `JSON.stringify` for an
integral JS number. -/
def encInt (n : Int) : Str :=
  if n < 0 then '-' :: natChars n.natAbs else natChars n.toNat

/-- JSON string-body escaping: `"` and `\` get a backslash escape, every
other character is kept verbatim. -/
def escStr : Str → Str
  | [] => []
  | c :: t => (if c = '"' || c = '\\' then ['\\', c] else [c]) ++ escStr t

/-- JSON encoding of a string: quoted, body escaped. -/
def encStr (s : Str) : Str := '"' :: escStr s ++ ['"']

/-- The keyword that `JSON.stringify` prints for `null`. -/
def kwNull : Str := ['n', 'u', 'l', 'l']

/-- The keyword that `JSON.stringify` prints for `true`. -/
def kwTrue : Str := ['t', 'r', 'u', 'e']

/-- The keyword that `JSON.stringify` prints for `false`. -/
def kwFalse : Str := ['f', 'a', 'l', 's', 'e']

mutual

/-- Model of `JSON.stringify` restricted to serializable values: the exact
character sequence stored in the `value` column by `set`/`push`/`pull`. -/
def Json.enc : Json → Str
  | .null => kwNull
  | .bool true => kwTrue
  | .bool false => kwFalse
  | .num n => encInt n
  | .str s => encStr s
  | .arr l => '[' :: encElems l
  | .obj m => '\x7b' :: encMembers m

/-- Encodes the part of an array literal after `[`. -/
def encElems : List Json → Str
  | [] => [']']
  | v :: t => Json.enc v ++ encElemsRest t

/-- Encodes the part of an array literal after the first element. -/
def encElemsRest : List Json → Str
  | [] => [']']
  | v :: t => ',' :: Json.enc v ++ encElemsRest t

/-- Encodes the part of an object literal after the opening brace. -/
def encMembers : List (Str × Json) → Str
  | [] => ['\x7d']
  | (k, v) :: t => encStr k ++ ':' :: Json.enc v ++ encMembersRest t

/-- Encodes the part of an object literal after the first member. -/
def encMembersRest : List (Str × Json) → Str
  | [] => ['\x7d']
  | (k, v) :: t => ',' :: encStr k ++ ':' :: Json.enc v ++ encMembersRest t

end

/-- Reads the body of a JSON string literal up to its closing quote,
undoing the escapes produced by `escStr`. -/
def parseStrBody : Str → Option (Str × Str)
  | [] => none
  | c :: cs =>
    if c = '"' then some ([], cs)
    else if c = '\\' then
      match cs with
      | [] => none
      | e :: cs2 =>
        match parseStrBody cs2 with
        | none => none
        | some (s, r) => some (e :: s, r)
    else
      match parseStrBody cs with
      | none => none
      | some (s, r) => some (c :: s, r)

/-- Consumes an expected literal character sequence. -/
def expectChars : Str → Str → Option Str
  | [], cs => some cs
  | _ :: _, [] => none
  | e :: es, c :: cs => if c = e then expectChars es cs else none

/-- Reads a maximal run of decimal digits. -/
def parseDigits : Str → List Nat × Str
  | [] => ([], [])
  | c :: cs =>
    if isDigitCh c then
      let p := parseDigits cs
      (digitVal c :: p.1, p.2)
    else ([], c :: cs)

/-- Reads a natural number written as a nonempty digit run. -/
def parseNumFrom (cs : Str) : Option (Nat × Str) :=
  match parseDigits cs with
  | ([], _) => none
  | (ds, r) => some (valOfDigits ds, r)

mutual

/-- Model of `JSON.parse` (value level): reads one JSON value off the front
of the input.  The fuel argument makes the mutual recursion structural; any
fuel not below the input length is sufficient. -/
def parseVal : Nat → Str → Option (Json × Str)
  | 0, _ => none
  | _ + 1, [] => none
  | fuel + 1, c :: cs =>
    if c = 'n' then
      match expectChars ['u', 'l', 'l'] cs with
      | some r => some (.null, r)
      | none => none
    else if c = 't' then
      match expectChars ['r', 'u', 'e'] cs with
      | some r => some (.bool true, r)
      | none => none
    else if c = 'f' then
      match expectChars ['a', 'l', 's', 'e'] cs with
      | some r => some (.bool false, r)
      | none => none
    else if c = '"' then
      match parseStrBody cs with
      | some (s, r) => some (.str s, r)
      | none => none
    else if c = '[' then
      match parseElemsStart fuel cs with
      | some (l, r) => some (.arr l, r)
      | none => none
    else if c = '\x7b' then
      match parseMembersStart fuel cs with
      | some (m, r) => some (.obj m, r)
      | none => none
    else if c = '-' then
      match parseNumFrom cs with
      | some (m, r) => some (.num (-(m : Int)), r)
      | none => none
    else
      match parseNumFrom (c :: cs) with
      | some (m, r) => some (.num (m : Int), r)
      | none => none

/-- Reads the elements of an array literal, right after `[`. -/
def parseElemsStart : Nat → Str → Option (List Json × Str)
  | 0, _ => none
  | _ + 1, [] => none
  | fuel + 1, c :: cs =>
    if c = ']' then some ([], cs)
    else
      match parseVal fuel (c :: cs) with
      | none => none
      | some (v, r) =>
        match parseElemsRest fuel r with
        | none => none
        | some (l, r2) => some (v :: l, r2)

/-- Reads the elements of an array literal after the first element. -/
def parseElemsRest : Nat → Str → Option (List Json × Str)
  | 0, _ => none
  | _ + 1, [] => none
  | fuel + 1, c :: cs =>
    if c = ']' then some ([], cs)
    else if c = ',' then
      match parseVal fuel cs with
      | none => none
      | some (v, r) =>
        match parseElemsRest fuel r with
        | none => none
        | some (l, r2) => some (v :: l, r2)
    else none

/-- Reads the members of an object literal, right after the opening brace. -/
def parseMembersStart : Nat → Str → Option (List (Str × Json) × Str)
  | 0, _ => none
  | _ + 1, [] => none
  | fuel + 1, c :: cs =>
    if c = '\x7d' then some ([], cs)
    else if c = '"' then
      match parseStrBody cs with
      | none => none
      | some (k, r) =>
        match r with
        | ':' :: r2 =>
          match parseVal fuel r2 with
          | none => none
          | some (v, r3) =>
            match parseMembersRest fuel r3 with
            | none => none
            | some (m, r4) => some ((k, v) :: m, r4)
        | _ => none
    else none

/-- Reads the members of an object literal after the first member. -/
def parseMembersRest : Nat → Str → Option (List (Str × Json) × Str)
  | 0, _ => none
  | _ + 1, [] => none
  | fuel + 1, c :: cs =>
    if c = '\x7d' then some ([], cs)
    else if c = ',' then
      match cs with
      | '"' :: cs2 =>
        match parseStrBody cs2 with
        | none => none
        | some (k, r) =>
          match r with
          | ':' :: r2 =>
            match parseVal fuel r2 with
            | none => none
            | some (v, r3) =>
              match parseMembersRest fuel r3 with
              | none => none
              | some (m, r4) => some ((k, v) :: m, r4)
          | _ => none
      | _ => none
    else none

end

/-- Model of `JSON.parse` on a whole stored text: the parse succeeds when one
value consumes the entire input; otherwise the JS call throws a syntax
error, modelled as `none`. -/
def Json.parse (s : Str) : Option Json :=
  match parseVal (s.length + 1) s with
  | some (v, []) => some v
  | _ => none

/-- Holds when the input does not begin with a decimal digit, so a number
read right before it ends exactly there. -/
def digitFree : Str → Bool
  | [] => true
  | c :: _ => !isDigitCh c

/- ### JS array helpers used by `push` and `pull` -/

/-- Set-based deduplication as performed by `[...new Set(a)]`: insertion
order, first occurrence kept, membership tested by `SameValueZero` — which,
on this data path, `jsEq` models. -/
def setDedupGo (seen : List Json) : List Json → List Json
  | [] => []
  | x :: t =>
    if seen.any (fun y => jsEq y x) then setDedupGo seen t
    else x :: setDedupGo (seen ++ [x]) t

/-- Model of `[...new Set(a)]` on the `push` data path. -/
def setDedup (l : List Json) : List Json := setDedupGo [] l

/-- Model of `Array.prototype.indexOf` (strict equality), returning `-1`
when no element matches. -/
def jsIndexOfFrom (v : Json) : List Json → Nat → Int
  | [], _ => -1
  | x :: t, i => if jsEq x v then (i : Int) else jsIndexOfFrom v t (i + 1)

/-- First index of `v` in `l` under JS strict equality, `-1` if absent. -/
def jsIndexOf (l : List Json) (v : Json) : Int := jsIndexOfFrom v l 0

/-- Model of `a.splice(i, 1)`'s effect on the array: a negative start is
clamped to `length + i` (but not below zero), then one element is removed. -/
def spliceOne (l : List Json) (i : Int) : List Json :=
  let start : Nat := if i < 0 then ((l.length : Int) + i).toNat else min i.toNat l.length
  l.take start ++ l.drop (start + 1)

/- ### SQLite `LIKE` (model of `key LIKE '%<filter>%'`) -/

/-- SQLite `LIKE` folds the 26 ASCII upper-case letters to lower case before
comparing. -/
def foldChar (c : Char) : Char :=
  if 'A' ≤ c && c ≤ 'Z' then Char.ofNat (c.toNat + 32) else c

/-- Character comparison used by `LIKE`: equality up to ASCII case. -/
def likeCharEq (p c : Char) : Bool := foldChar p = foldChar c

/-- SQLite `LIKE` matcher: `%` matches any sequence, `_` any one character,
anything else one character up to ASCII case.  Fuel-driven (structural); any
fuel above `pattern length + input length` is sufficient. -/
def likeMatchF : Nat → Str → Str → Bool
  | 0, _, _ => false
  | _ + 1, [], [] => true
  | _ + 1, [], _ :: _ => false
  | fuel + 1, p :: ps, s =>
    if p = '%' then
      likeMatchF fuel ps s ||
        (match s with
         | [] => false
         | _ :: t => likeMatchF fuel (p :: ps) t)
    else
      match s with
      | [] => false
      | c :: t => (if p = '_' then true else likeCharEq p c) && likeMatchF fuel ps t

/-- Whether `pat` LIKE-matches `s`. -/
def likeMatch (pat s : Str) : Bool := likeMatchF (pat.length + s.length + 1) pat s

/-- Decides whether `n` is a leading subsequence of `h` (character-for-
character equality). -/
def beginsWith : Str → Str → Bool
  | [], _ => true
  | _ :: _, [] => false
  | c :: t, d :: u => c = d && beginsWith t u

/-- Decides whether `n` occurs in `h` as a contiguous substring. -/
def hasSubstr (n : Str) : Str → Bool
  | [] => beginsWith n []
  | c :: t => beginsWith n (c :: t) || hasSubstr n t

/-- Holds for filters that use no `LIKE` wildcard characters. -/
def wcFree (s : Str) : Bool := s.all (fun c => !(c = '%' || c = '_'))

/- ### The store -/

/-- A `string | number` argument of the TS API.  SQLite's TEXT affinity turns
numeric keys into their decimal text at the storage boundary, so row keys are
plain `Str`; this sum type is kept where JS truthiness matters (the
`key ? filtered : unfiltered` checks of `getAll` / `getFirst`). -/
inductive JsArg where
  | str (s : Str)
  | num (n : Int)

/-- JS truthiness of a `string | number`: `""` and `0` are falsy. -/
def truthy : JsArg → Bool
  | .str s => !s.isEmpty
  | .num n => !(decide (n = 0))

/-- Text interpolation of an argument into a SQL template string. -/
def argChars : JsArg → Str
  | .str s => s
  | .num n => encInt n

/-- The distinct error sites of the wrapper.  `notReady` is the thrown
`[MonoxityDB] SQLite has not been initialized` precondition error,
`notArr` the thrown `[MonoxityDB] Provided key does not return an array`
shape error, `engine` an error object with which the storage engine rejected
a statement, `badJson` the `SyntaxError` thrown by `JSON.parse`. -/
inductive ErrTag where
  | notReady
  | notArr
  | engine
  | badJson

/-- Outcome of a call: a normal return or a thrown error / rejected
promise. -/
inductive JsResult (α : Type) where
  | ret (a : α)
  | exn (e : ErrTag)

/-- State of one `MonoxityDB` handle: the ready flag (TS field
`initialized`) and the bound table's rows in rowid order.  The
`(fileName, table)` pair is fixed for the handle's lifetime and plays no
role in any claim, so it is not carried around. -/
structure MonoxityDB where
  ready : Bool
  rows : List (Str × Str)

/-- Row lookup of `SELECT * FROM t WHERE key = ?`. -/
def lookupRow : List (Str × Str) → Str → Option Str
  | [], _ => none
  | r :: t, k => if r.1 = k then some r.2 else lookupRow t k

/-- Effect of `INSERT OR REPLACE INTO t (key, value) VALUES (?, ?)`: the
conflicting row (if any) is deleted and the new row is appended with a fresh
rowid. -/
def upsert (rows : List (Str × Str)) (k s : Str) : List (Str × Str) :=
  rows.filter (fun r => !(decide (r.1 = k))) ++ [(k, s)]

/-- Effect of `DELETE FROM t WHERE key = ?`. -/
def delByKey (rows : List (Str × Str)) (k : Str) : List (Str × Str) :=
  rows.filter (fun r => !(decide (r.1 = k)))

/-- JSON-decodes every row value, as the `data.map` of `getAll` / `getFirst`
does; the first undecodable value makes `JSON.parse` throw. -/
def decodeRows : List (Str × Str) → JsResult (List (Str × Json))
  | [] => .ret []
  | r :: t =>
    match Json.parse r.2 with
    | none => .exn .badJson
    | some v =>
      match decodeRows t with
      | .ret l => .ret ((r.1, v) :: l)
      | .exn e => .exn e

/-- Decides whether interpolating this text into a SQL string literal keeps
the statement as the intended query: SQLite string literals end at a single
quote, so an unescaped quote in the interpolated text derails the
statement. -/
def sqlTextOk (s : Str) : Bool := s.all (fun c => !(c = '\x27'))

/-- The `WHERE key LIKE '%<filter>%'` clause that `getAll` / `getFirst`
interpolate when their filter argument is truthy.  The filter is spliced
into the SQL text unescaped — not bound as a parameter — so a truthy filter
containing a single quote does not issue the intended query: in the common
case the statement is malformed and the engine rejects it, which is what
the `none` branch stands for (certain quote patterns instead form a
different well-formed query — a SQL injection; no theorem below depends on
this branch).  For quote-free filters the executed clause is the literal
LIKE pattern `%filter%`. -/
def applyFilter (rows : List (Str × Str)) (filt : Option JsArg) :
    Option (List (Str × Str)) :=
  match filt with
  | some f =>
    if truthy f then
      if sqlTextOk (argChars f) then
        some (rows.filter (fun r => likeMatch ('%' :: argChars f ++ ['%']) r.1))
      else none
    else some rows
  | none => some rows

/-- Model of `connect` (src/src/index.ts lines 33-48).  `openOk` says whether
`open(...)` resolves (its rejection is caught and turned into a `null`
handle); `createOk` says whether the `CREATE TABLE IF NOT EXISTS` statement
is accepted — its rejection has no `.catch` and therefore propagates. -/
def MonoxityDB.connect (db : MonoxityDB) (openOk createOk : Bool) :
    JsResult Bool × MonoxityDB :=
  if openOk then
    if createOk then (.ret true, { db with ready := true })
    else (.exn .engine, db)
  else (.ret db.ready, db)

/-- Model of `set` (src/src/index.ts lines 61-75): readiness check, then an
upsert of the JSON-encoded value; the statement's rejection is caught and
reported as `false` (here `none`). -/
def MonoxityDB.set (db : MonoxityDB) (wOk : Bool) (k : Str) (v : Json) :
    JsResult (Option (Str × Json)) × MonoxityDB :=
  if db.ready then
    if wOk then
      (.ret (some (k, v)), { db with rows := upsert db.rows k (Json.enc v) })
    else (.ret none, db)
  else (.exn .notReady, db)

/-- Model of `get` (src/src/index.ts lines 156-163): readiness check, point
lookup, JSON decode of the found value, caller default otherwise. -/
def MonoxityDB.get (db : MonoxityDB) (k : Str) (dflt : Option Json) :
    JsResult (Option Json) :=
  if db.ready then
    match lookupRow db.rows k with
    | some s =>
      match Json.parse s with
      | some v => .ret (some v)
      | none => .exn .badJson
    | none => .ret dflt
  else .exn .notReady

/-- Model of `push` (src/src/index.ts lines 88-112): read-modify-write that
appends to the sequence at `k` (defaulting to `[]`), optionally deduplicated
through `new Set`, then written back by upsert.  The write statement has no
`.catch`: its rejection propagates. -/
def MonoxityDB.push (db : MonoxityDB) (wOk : Bool) (k : Str) (v : Json)
    (destroyDuplicates : Bool) : JsResult (Option (Str × Json)) × MonoxityDB :=
  if db.ready then
    match MonoxityDB.get db k (some (.arr [])) with
    | .exn e => (.exn e, db)
    | .ret cur =>
      match cur with
      | some (.arr elems) =>
        let data1 := elems ++ [v]
        let data2 := if destroyDuplicates then setDedup data1 else data1
        if wOk then
          (.ret (some (k, v)), { db with rows := upsert db.rows k (Json.enc (.arr data2)) })
        else (.exn .engine, db)
      | _ => (.exn .notArr, db)
  else (.exn .notReady, db)

/-- Model of `pull` (src/src/index.ts lines 124-143): read-modify-write that
removes the element at `indexOf value` by `splice(·, 1)` and writes the
sequence back.  The write statement has no `.catch`: its rejection
propagates. -/
def MonoxityDB.pull (db : MonoxityDB) (wOk : Bool) (k : Str) (v : Json) :
    JsResult (Option (Str × Json)) × MonoxityDB :=
  if db.ready then
    match MonoxityDB.get db k (some (.arr [])) with
    | .exn e => (.exn e, db)
    | .ret cur =>
      match cur with
      | some (.arr elems) =>
        let data1 := spliceOne elems (jsIndexOf elems v)
        if wOk then
          (.ret (some (k, v)), { db with rows := upsert db.rows k (Json.enc (.arr data1)) })
        else (.exn .engine, db)
      | _ => (.exn .notArr, db)
  else (.exn .notReady, db)

/-- Model of `getAll` (src/src/index.ts lines 175-185): full scan, LIKE
filter when the argument is truthy, every value JSON-decoded.  The
`database.all(q)` call has no `.catch`, so when the interpolated statement
is not the intended query and the engine rejects it, the rejection
propagates. -/
def MonoxityDB.getAll (db : MonoxityDB) (filt : Option JsArg) :
    JsResult (List (Str × Json)) :=
  if db.ready then
    match applyFilter db.rows filt with
    | some rows => decodeRows rows
    | none => .exn .engine
  else .exn .notReady

/-- Model of `getFirst` (src/src/index.ts lines 196-211): as `getAll`, with a
`LIMIT` interpolated as `limit || 5`; SQLite treats a negative limit as
unlimited. -/
def MonoxityDB.getFirst (db : MonoxityDB) (lim : Int) (filt : Option JsArg) :
    JsResult (List (Str × Json)) :=
  if db.ready then
    match applyFilter db.rows filt with
    | some fr =>
      let eff : Int := if lim = 0 then 5 else lim
      decodeRows (if eff < 0 then fr else fr.take eff.toNat)
    | none => .exn .engine
  else .exn .notReady

/-- Model of `delete` (src/src/index.ts lines 223-229): the delete statement
is issued and the *statement's acceptance* is reported — the rejection is
caught and reported as `false`, a zero-row match still reports `true`. -/
def MonoxityDB.delete (db : MonoxityDB) (wOk : Bool) (k : Str) :
    JsResult Bool × MonoxityDB :=
  if db.ready then
    if wOk then (.ret true, { db with rows := delByKey db.rows k })
    else (.ret false, db)
  else (.exn .notReady, db)

/-- Model of `destroy` (src/src/index.ts lines 239-245): unconditional
`DELETE FROM t`, with the same statement-accepted semantics as `delete`. -/
def MonoxityDB.destroy (db : MonoxityDB) (wOk : Bool) :
    JsResult Bool × MonoxityDB :=
  if db.ready then
    if wOk then (.ret true, { db with rows := [] })
    else (.ret false, db)
  else (.exn .notReady, db)

/-- Model of `rowCount` (src/src/index.ts lines 255-261): aggregate count of
the bound table. -/
def MonoxityDB.rowCount (db : MonoxityDB) : JsResult Nat :=
  if db.ready then .ret db.rows.length
  else .exn .notReady

/- ### Concrete fixtures used by witnesses and counterexamples -/

/-- An initialized store with an empty table. -/
def dbEmpty : MonoxityDB := ⟨true, []⟩

/-- A store that has not been connected yet. -/
def dbFresh : MonoxityDB := ⟨false, [(['z'], Json.enc (.num 7))]⟩

/-- An initialized store holding the sequence `[1, 2, 3]` at key `k`. -/
def dbSeq : MonoxityDB :=
  ⟨true, [(['k'], Json.enc (.arr [.num 1, .num 2, .num 3]))]⟩

/-- The three-row store of the specification's `GetAll` example, with an
upper-case key thrown in. -/
def dbKeys : MonoxityDB :=
  ⟨true, [(['a', 'b', 'c'], Json.enc (.num 1)),
          (['x', 'A', 'B', 'C', 'x'], Json.enc (.num 2)),
          (['z', 'z', 'z'], Json.enc (.num 3))]⟩

/-- Witness key. -/
def wKey : Str := ['u', 's', 'e', 'r']

/-- Witness value exercising every `Json` constructor, escapes included. -/
def wVal : Json :=
  .obj [(['a'], .arr [.num (-12), .str ['q', '"', '\\'], .bool true, .null]),
        ([], .num 0), (['e'], .arr []), (['o'], .obj [])]

/- ### Codec lemmas -/

/-- Reading a string body undoes `escStr` up to the closing quote. -/
theorem parseStrBody_escStr : ∀ s rest : Str,
    parseStrBody (escStr s ++ '"' :: rest) = some (s, rest)
  | [], rest => by
    rw [show escStr [] = [] from rfl, List.nil_append, parseStrBody.eq_def]
    simp
  | c :: t, rest => by
    have ih := parseStrBody_escStr t rest
    by_cases h1 : c = '"'
    · subst h1; simp [escStr, parseStrBody, ih]
    · by_cases h2 : c = '\\'
      · subst h2; simp [escStr, parseStrBody, ih]
      · have hesc : escStr (c :: t) ++ '"' :: rest = c :: (escStr t ++ '"' :: rest) := by
          simp [escStr, h1, h2]
        rw [hesc, parseStrBody.eq_def]
        simp [h1, h2, ih]

/-- A digit character is one of the ten digits. -/
theorem isDigitCh_elim {c : Char} (h : isDigitCh c = true) :
    c = '0' ∨ c = '1' ∨ c = '2' ∨ c = '3' ∨ c = '4' ∨ c = '5' ∨
    c = '6' ∨ c = '7' ∨ c = '8' ∨ c = '9' := by
  have h2 := h
  simp [isDigitCh] at h2
  tauto

/-- The digit character of a digit value is a digit character. -/
theorem isDigitCh_digitChar {d : Nat} (h : d < 10) : isDigitCh (digitChar d) = true := by
  interval_cases d <;> rfl

/-- Reading back the digit character of a digit value. -/
theorem digitVal_digitChar {d : Nat} (h : d < 10) : digitVal (digitChar d) = d := by
  interval_cases d <;> rfl

/-- Appending a final digit multiplies the value by ten and adds it. -/
theorem valOfDigits_append_last (l : List Nat) (d : Nat) :
    valOfDigits (l ++ [d]) = 10 * valOfDigits l + d := by
  simp [valOfDigits, List.foldl_append]

/-- The fuel-driven digit expansion is correct whenever the fuel exceeds the
number. -/
theorem natDigsF_spec : ∀ fuel n, n < fuel →
    natDigsF fuel n ≠ [] ∧ (∀ d ∈ natDigsF fuel n, d < 10) ∧
      valOfDigits (natDigsF fuel n) = n := by
  intro fuel
  induction fuel with
  | zero => intro n h; omega
  | succ g ih =>
    intro n h
    by_cases h10 : n < 10
    · refine ⟨by simp [natDigsF, h10], ?_, by simp [natDigsF, h10, valOfDigits]⟩
      intro d hd
      simp [natDigsF, h10] at hd
      omega
    · have hlt : n / 10 < g := by omega
      obtain ⟨hne, hdig, hval⟩ := ih (n / 10) hlt
      refine ⟨by simp [natDigsF, h10], ?_, ?_⟩
      · intro d hd
        simp [natDigsF, h10] at hd
        rcases hd with hd | hd
        · exact hdig d hd
        · omega
      · rw [show natDigsF (g + 1) n = natDigsF g (n / 10) ++ [n % 10] by
          simp [natDigsF, h10]]
        rw [valOfDigits_append_last, hval]
        omega

/-- Correctness of the decimal expansion of a natural number. -/
theorem natDigs_spec (n : Nat) :
    natDigs n ≠ [] ∧ (∀ d ∈ natDigs n, d < 10) ∧ valOfDigits (natDigs n) = n :=
  natDigsF_spec (n + 1) n (by omega)

/-- Reading a digit run reads back exactly the digits written, stopping at a
digit-free remainder. -/
theorem parseDigits_spec : ∀ (ds : List Nat) (rest : Str), (∀ d ∈ ds, d < 10) →
    digitFree rest = true → parseDigits (ds.map digitChar ++ rest) = (ds, rest)
  | [], rest, _, hr => by
    cases rest with
    | nil => rfl
    | cons c t =>
      have hc : isDigitCh c = false := by
        have := hr
        simp [digitFree] at this
        simp [this]
      simp [parseDigits, hc]
  | d :: ds, rest, hds, hr => by
    have h10 : d < 10 := hds d (by simp)
    have ih := parseDigits_spec ds rest (fun x hx => hds x (by simp [hx])) hr
    simp [parseDigits, isDigitCh_digitChar h10, ih, digitVal_digitChar h10]

/-- Reading a number reads back exactly the decimal text written. -/
theorem parseNumFrom_natChars (m : Nat) (rest : Str) (hr : digitFree rest = true) :
    parseNumFrom (natChars m ++ rest) = some (m, rest) := by
  obtain ⟨hne, hlt, hval⟩ := natDigs_spec m
  have hp := parseDigits_spec (natDigs m) rest hlt hr
  unfold parseNumFrom natChars
  rw [hp]
  cases hdm : natDigs m with
  | nil => exact absurd hdm hne
  | cons a as =>
    rw [hdm] at hval
    simp [hval]

/-- The decimal text of a natural number begins with a digit character. -/
theorem natChars_head (m : Nat) :
    ∃ c t, natChars m = c :: t ∧ isDigitCh c = true := by
  obtain ⟨hne, hlt, _⟩ := natDigs_spec m
  cases hdm : natDigs m with
  | nil => exact absurd hdm hne
  | cons d ds =>
    exact ⟨digitChar d, ds.map digitChar, by simp [natChars, hdm],
      isDigitCh_digitChar (hlt d (by simp [hdm]))⟩

/-- A digit character is none of the leading characters of the other JSON
value forms. -/
theorem digit_ne_lead {c : Char} (h : isDigitCh c = true) :
    c ≠ 'n' ∧ c ≠ 't' ∧ c ≠ 'f' ∧ c ≠ '"' ∧ c ≠ '[' ∧ c ≠ '\x7b' ∧ c ≠ '-' := by
  obtain hc | hc | hc | hc | hc | hc | hc | hc | hc | hc := isDigitCh_elim h <;>
    subst hc <;> refine ⟨?_, ?_, ?_, ?_, ?_, ?_, ?_⟩ <;> decide

/-- A digit character closes no bracket and is not a separator. -/
theorem digit_ne_close {c : Char} (h : isDigitCh c = true) :
    c ≠ ']' ∧ c ≠ ',' ∧ c ≠ '\x7d' := by
  obtain hc | hc | hc | hc | hc | hc | hc | hc | hc | hc := isDigitCh_elim h <;>
    subst hc <;> refine ⟨?_, ?_, ?_⟩ <;> decide

/-- Every encoding is nonempty and starts with a character that is not a
closing bracket, separator, or closing brace. -/
theorem enc_head (v : Json) :
    ∃ c t, Json.enc v = c :: t ∧ c ≠ ']' ∧ c ≠ ',' ∧ c ≠ '\x7d' := by
  cases v with
  | null => exact ⟨'n', _, rfl, by decide, by decide, by decide⟩
  | bool b =>
    cases b with
    | false => exact ⟨'f', _, rfl, by decide, by decide, by decide⟩
    | true => exact ⟨'t', _, rfl, by decide, by decide, by decide⟩
  | num n =>
    by_cases hn : n < 0
    · exact ⟨'-', natChars n.natAbs, by simp [Json.enc, encInt, hn],
        by decide, by decide, by decide⟩
    · obtain ⟨c, t, hct, hd⟩ := natChars_head n.toNat
      obtain ⟨g1, g2, g3⟩ := digit_ne_close hd
      exact ⟨c, t, by simp [Json.enc, encInt, hn, hct], g1, g2, g3⟩
  | str s => exact ⟨'"', _, rfl, by decide, by decide, by decide⟩
  | arr l => exact ⟨'[', encElems l, rfl, by decide, by decide, by decide⟩
  | obj m => exact ⟨'\x7b', encMembers m, rfl, by decide, by decide, by decide⟩

/-- Encodings have positive length. -/
theorem enc_len_pos (v : Json) : 1 ≤ (Json.enc v).length := by
  obtain ⟨c, t, h, -, -, -⟩ := enc_head v
  simp [h]

/-- Element-tail encodings have positive length. -/
theorem encElemsRest_len_pos (l : List Json) : 1 ≤ (encElemsRest l).length := by
  cases l <;> simp [encElemsRest]

/-- Element-list encodings have positive length. -/
theorem encElems_len_pos (l : List Json) : 1 ≤ (encElems l).length := by
  cases l with
  | nil => simp [encElems]
  | cons v t =>
    have := enc_len_pos v
    simp [encElems]
    omega

/-- Member-tail encodings have positive length. -/
theorem encMembersRest_len_pos (m : List (Str × Json)) :
    1 ≤ (encMembersRest m).length := by
  cases m with
  | nil => simp [encMembersRest]
  | cons kv t => cases kv; simp [encMembersRest]

/-- Member-list encodings have positive length. -/
theorem encMembers_len_pos (m : List (Str × Json)) : 1 ≤ (encMembers m).length := by
  cases m with
  | nil => simp [encMembers]
  | cons kv t => cases kv; simp [encMembers, encStr]

/-- What follows an element inside an array literal never starts with a
digit. -/
theorem encElemsRest_digitFree (l : List Json) (rest : Str) :
    digitFree (encElemsRest l ++ rest) = true := by
  cases l <;> rfl

/-- What follows a member value inside an object literal never starts with a
digit. -/
theorem encMembersRest_digitFree (m : List (Str × Json)) (rest : Str) :
    digitFree (encMembersRest m ++ rest) = true := by
  cases m with
  | nil => rfl
  | cons kv t => cases kv; rfl

/-- Unfolding of the reader at a `-` head: a negative number follows. -/
theorem parseVal_dash (f : Nat) (cs : Str) :
    parseVal (f + 1) ('-' :: cs) =
      match parseNumFrom cs with
      | some (m, r) => some (.num (-(m : Int)), r)
      | none => none := by
  rw [parseVal.eq_def]
  try rfl

/-- Unfolding of the reader at a digit head: a number follows. -/
theorem parseVal_digitHead (f : Nat) (c : Char) (cs : Str) (hd : isDigitCh c = true) :
    parseVal (f + 1) (c :: cs) =
      match parseNumFrom (c :: cs) with
      | some (m, r) => some (.num (m : Int), r)
      | none => none := by
  obtain hc | hc | hc | hc | hc | hc | hc | hc | hc | hc := isDigitCh_elim hd <;>
    subst hc <;> (rw [parseVal.eq_def]; rfl)

/-- Unfolding of the reader at a quote head: a string literal follows. -/
theorem parseVal_quote (f : Nat) (cs : Str) :
    parseVal (f + 1) ('"' :: cs) =
      match parseStrBody cs with
      | some (s, r) => some (.str s, r)
      | none => none := by
  rw [parseVal.eq_def]
  try rfl

/-- Unfolding of the reader at an opening bracket: an array follows. -/
theorem parseVal_lbracket (f : Nat) (cs : Str) :
    parseVal (f + 1) ('[' :: cs) =
      match parseElemsStart f cs with
      | some (l, r) => some (.arr l, r)
      | none => none := by
  rw [parseVal.eq_def]
  try rfl

/-- Unfolding of the reader at an opening brace: an object follows. -/
theorem parseVal_lbrace (f : Nat) (cs : Str) :
    parseVal (f + 1) ('\x7b' :: cs) =
      match parseMembersStart f cs with
      | some (m, r) => some (.obj m, r)
      | none => none := by
  rw [parseVal.eq_def]
  try rfl

/-- Unfolding of the element reader at its first input character. -/
theorem parseElemsStart_cons (f : Nat) (c : Char) (cs : Str) :
    parseElemsStart (f + 1) (c :: cs) =
      if c = ']' then some ([], cs)
      else
        match parseVal f (c :: cs) with
        | none => none
        | some (v, r) =>
          match parseElemsRest f r with
          | none => none
          | some (l, r2) => some (v :: l, r2) := by
  rw [parseElemsStart.eq_def]
  try rfl

/-- Unfolding of the element-tail reader at a separator. -/
theorem parseElemsRest_comma (f : Nat) (cs : Str) :
    parseElemsRest (f + 1) (',' :: cs) =
      match parseVal f cs with
      | none => none
      | some (v, r) =>
        match parseElemsRest f r with
        | none => none
        | some (l, r2) => some (v :: l, r2) := by
  rw [parseElemsRest.eq_def]
  try rfl

/-- Unfolding of the member reader at a quoted key. -/
theorem parseMembersStart_quote (f : Nat) (cs : Str) :
    parseMembersStart (f + 1) ('"' :: cs) =
      match parseStrBody cs with
      | none => none
      | some (k, r) =>
        match r with
        | ':' :: r2 =>
          match parseVal f r2 with
          | none => none
          | some (v, r3) =>
            match parseMembersRest f r3 with
            | none => none
            | some (m, r4) => some ((k, v) :: m, r4)
        | _ => none := by
  rw [parseMembersStart.eq_def]
  try rfl

/-- Unfolding of the member-tail reader at a separator and quoted key. -/
theorem parseMembersRest_comma (f : Nat) (cs2 : Str) :
    parseMembersRest (f + 1) (',' :: '"' :: cs2) =
      match parseStrBody cs2 with
      | none => none
      | some (k, r) =>
        match r with
        | ':' :: r2 =>
          match parseVal f r2 with
          | none => none
          | some (v, r3) =>
            match parseMembersRest f r3 with
            | none => none
            | some (m, r4) => some ((k, v) :: m, r4)
        | _ => none := by
  rw [parseMembersRest.eq_def]
  try rfl

/-- Fuel-indexed round-trip of the codec: with fuel at least the length of
the encoded text, the reader returns exactly the encoded data and leaves the
remainder untouched (for the value form, provided the remainder does not
start with a digit, so that a trailing number ends where it was written). -/
theorem parse_encAux : ∀ fuel : Nat,
    (∀ v rest, (Json.enc v).length ≤ fuel → digitFree rest = true →
      parseVal fuel (Json.enc v ++ rest) = some (v, rest)) ∧
    (∀ l rest, (encElems l).length ≤ fuel →
      parseElemsStart fuel (encElems l ++ rest) = some (l, rest)) ∧
    (∀ l rest, (encElemsRest l).length ≤ fuel →
      parseElemsRest fuel (encElemsRest l ++ rest) = some (l, rest)) ∧
    (∀ m rest, (encMembers m).length ≤ fuel →
      parseMembersStart fuel (encMembers m ++ rest) = some (m, rest)) ∧
    (∀ m rest, (encMembersRest m).length ≤ fuel →
      parseMembersRest fuel (encMembersRest m ++ rest) = some (m, rest)) := by
  intro fuel
  induction fuel with
  | zero =>
    refine ⟨fun v rest hlen _ => absurd hlen (by have := enc_len_pos v; omega),
            fun l rest hlen => absurd hlen (by have := encElems_len_pos l; omega),
            fun l rest hlen => absurd hlen (by have := encElemsRest_len_pos l; omega),
            fun m rest hlen => absurd hlen (by have := encMembers_len_pos m; omega),
            fun m rest hlen => absurd hlen (by have := encMembersRest_len_pos m; omega)⟩
  | succ f ih =>
    obtain ⟨ih1, ih2, ih3, ih4, ih5⟩ := ih
    refine ⟨?_, ?_, ?_, ?_, ?_⟩
    · intro v rest hlen hdf
      cases v with
      | null =>
        rw [show Json.enc Json.null = ['n', 'u', 'l', 'l'] from rfl]
        simp only [List.cons_append, List.nil_append]
        rw [parseVal.eq_def]
        simp [expectChars]
      | bool b =>
        cases b with
        | true =>
          rw [show Json.enc (Json.bool true) = ['t', 'r', 'u', 'e'] from rfl]
          simp only [List.cons_append, List.nil_append]
          rw [parseVal.eq_def]
          simp [expectChars]
        | false =>
          rw [show Json.enc (Json.bool false) = ['f', 'a', 'l', 's', 'e'] from rfl]
          simp only [List.cons_append, List.nil_append]
          rw [parseVal.eq_def]
          simp [expectChars]
      | num n =>
        rw [show Json.enc (Json.num n) = encInt n from rfl]
        by_cases hn : n < 0
        · rw [encInt, if_pos hn, List.cons_append, parseVal_dash,
            parseNumFrom_natChars _ _ hdf]
          show some (Json.num (-((n.natAbs : Int))), rest) = some (Json.num n, rest)
          have hk : -((n.natAbs : Int)) = n := by omega
          rw [hk]
        · obtain ⟨c, t, hct, hd⟩ := natChars_head n.toNat
          rw [encInt, if_neg hn, hct, List.cons_append, parseVal_digitHead f c _ hd,
            ← List.cons_append, ← hct, parseNumFrom_natChars _ _ hdf]
          show some (Json.num ((n.toNat : Int)), rest) = some (Json.num n, rest)
          have hk : ((n.toNat : Int)) = n := by omega
          rw [hk]
      | str s =>
        rw [show Json.enc (Json.str s) = encStr s from rfl, encStr]
        simp only [List.cons_append, List.append_assoc, List.singleton_append,
          List.nil_append]
        rw [parseVal_quote, parseStrBody_escStr]
      | arr l =>
        rw [show Json.enc (Json.arr l) = '[' :: encElems l from rfl] at hlen ⊢
        rw [List.cons_append, parseVal_lbracket]
        rw [ih2 l rest (by simp at hlen; omega)]
      | obj m =>
        rw [show Json.enc (Json.obj m) = '\x7b' :: encMembers m from rfl] at hlen ⊢
        rw [List.cons_append, parseVal_lbrace]
        rw [ih4 m rest (by simp at hlen; omega)]
    · intro l rest hlen
      cases l with
      | nil =>
        rw [show encElems [] = [']'] from rfl]
        rw [List.singleton_append, parseElemsStart.eq_def]
        rfl
      | cons v t =>
        obtain ⟨c, s, hvc, hne1, hne2, hne3⟩ := enc_head v
        have hlv := enc_len_pos v
        have hlt := encElemsRest_len_pos t
        rw [show encElems (v :: t) = Json.enc v ++ encElemsRest t from rfl] at hlen ⊢
        have hlen2 : (Json.enc v).length + (encElemsRest t).length ≤ f + 1 := by
          simpa using hlen
        rw [List.append_assoc, hvc, List.cons_append, parseElemsStart_cons, if_neg hne1,
          ← List.cons_append, ← hvc,
          ih1 v (encElemsRest t ++ rest) (by omega) (encElemsRest_digitFree t rest)]
        simp [ih3 t rest (by omega)]
    · intro l rest hlen
      cases l with
      | nil =>
        rw [show encElemsRest [] = [']'] from rfl]
        rw [List.singleton_append, parseElemsRest.eq_def]
        rfl
      | cons v t =>
        have hlv := enc_len_pos v
        have hlt := encElemsRest_len_pos t
        rw [show encElemsRest (v :: t) = ',' :: Json.enc v ++ encElemsRest t from rfl] at hlen ⊢
        simp only [List.length_append, List.length_cons] at hlen
        simp only [List.cons_append, List.append_assoc]
        rw [parseElemsRest_comma,
          ih1 v (encElemsRest t ++ rest) (by omega) (encElemsRest_digitFree t rest)]
        simp [ih3 t rest (by omega)]
    · intro m rest hlen
      cases m with
      | nil =>
        rw [show encMembers [] = ['\x7d'] from rfl]
        rw [List.singleton_append, parseMembersStart.eq_def]
        rfl
      | cons kv t =>
        obtain ⟨k, v⟩ := kv
        have hlv := enc_len_pos v
        have hlt := encMembersRest_len_pos t
        rw [show encMembers ((k, v) :: t) = encStr k ++ ':' :: Json.enc v ++ encMembersRest t
          from rfl] at hlen ⊢
        simp only [List.length_append, List.length_cons, encStr] at hlen
        rw [encStr]
        simp only [List.cons_append, List.append_assoc, List.singleton_append,
          List.nil_append]
        rw [parseMembersStart_quote, parseStrBody_escStr]
        have hv1 := ih1 v (encMembersRest t ++ rest) (by omega) (encMembersRest_digitFree t rest)
        have hm5 := ih5 t rest (by omega)
        simp [hv1, hm5]
    · intro m rest hlen
      cases m with
      | nil =>
        rw [show encMembersRest [] = ['\x7d'] from rfl]
        rw [List.singleton_append, parseMembersRest.eq_def]
        rfl
      | cons kv t =>
        obtain ⟨k, v⟩ := kv
        have hlv := enc_len_pos v
        have hlt := encMembersRest_len_pos t
        rw [show encMembersRest ((k, v) :: t) =
            ',' :: encStr k ++ ':' :: Json.enc v ++ encMembersRest t from rfl] at hlen ⊢
        simp only [List.length_append, List.length_cons, encStr] at hlen
        rw [encStr]
        simp only [List.cons_append, List.append_assoc, List.singleton_append,
          List.nil_append]
        rw [parseMembersRest_comma, parseStrBody_escStr]
        have hv1 := ih1 v (encMembersRest t ++ rest) (by omega) (encMembersRest_digitFree t rest)
        have hm5 := ih5 t rest (by omega)
        simp [hv1, hm5]

/-- Round-trip of the codec: decoding an encoding gives back the value.
This is the model-level fact that a value written by `JSON.stringify` is
recovered intact by `JSON.parse`. -/
theorem Json.parse_enc (v : Json) : Json.parse (Json.enc v) = some v := by
  have h := (parse_encAux ((Json.enc v).length + 1)).1 v [] (by omega) rfl
  rw [List.append_nil] at h
  unfold Json.parse
  rw [h]

/- ### Store lemmas -/

/-- Lookup walks an appended list left to right. -/
theorem lookupRow_append (a b : List (Str × Str)) (k : Str) :
    lookupRow (a ++ b) k =
      match lookupRow a k with
      | some s => some s
      | none => lookupRow b k := by
  induction a with
  | nil => simp [lookupRow]
  | cons r t ih =>
    by_cases hr : r.1 = k
    · simp [lookupRow, hr]
    · simp [lookupRow, hr, ih]

/-- Dropping the rows of one key does not change lookups of another key. -/
theorem lookupRow_filter_ne (rows : List (Str × Str)) (k k2 : Str) (h : k2 ≠ k) :
    lookupRow (rows.filter (fun r => !(decide (r.1 = k)))) k2 = lookupRow rows k2 := by
  have hkk : ¬(k = k2) := fun hx => h hx.symm
  induction rows with
  | nil => simp
  | cons r t ih =>
    by_cases hr : r.1 = k
    · simp [List.filter, hr, lookupRow, hkk, ih]
    · by_cases hr2 : r.1 = k2
      · simp [List.filter, hr, lookupRow, hr2, h]
      · simp [List.filter, hr, lookupRow, hr2, ih]

/-- After an upsert, looking up the written key finds the written text. -/
theorem lookupRow_upsert_self (rows : List (Str × Str)) (k s : Str) :
    lookupRow (upsert rows k s) k = some s := by
  unfold upsert
  rw [lookupRow_append]
  have hnone : lookupRow (rows.filter (fun r => !(decide (r.1 = k)))) k = none := by
    induction rows with
    | nil => simp [lookupRow]
    | cons r t ih =>
      by_cases hr : r.1 = k
      · simp [List.filter, hr, ih]
      · simp [List.filter, hr, lookupRow, ih]
  rw [hnone]
  simp [lookupRow]

/-- An upsert leaves lookups of every other key unchanged. -/
theorem lookupRow_upsert_other (rows : List (Str × Str)) (k k2 s : Str) (h : k2 ≠ k) :
    lookupRow (upsert rows k s) k2 = lookupRow rows k2 := by
  unfold upsert
  rw [lookupRow_append, lookupRow_filter_ne rows k k2 h]
  have hkk : ¬(k = k2) := fun hx => h hx.symm
  cases hl : lookupRow rows k2 with
  | some s2 => rfl
  | none => simp [lookupRow, hkk]

/-- A keyed delete leaves lookups of every other key unchanged. -/
theorem lookupRow_delByKey_other (rows : List (Str × Str)) (k k2 : Str) (h : k2 ≠ k) :
    lookupRow (delByKey rows k) k2 = lookupRow rows k2 :=
  lookupRow_filter_ne rows k k2 h

/-- Reads depend only on the ready flag and on the lookup of the read key. -/
theorem get_rows_congr (db1 db2 : MonoxityDB) (k2 : Str) (d : Option Json)
    (hr : db1.ready = db2.ready) (hl : lookupRow db1.rows k2 = lookupRow db2.rows k2) :
    MonoxityDB.get db1 k2 d = MonoxityDB.get db2 k2 d := by
  unfold MonoxityDB.get
  rw [hr, hl]

/- ### C1: set / get round-trip -/

/-- C1.  On an initialized store, `set(k, v)` followed by `get(k)` returns a
value deep-equal to `v`: the value text is JSON-encoded by the upsert and
JSON-decoded by the read, and the codec round-trips. -/
theorem set_get_roundtrip (db : MonoxityDB) (k : Str) (v : Json) (d : Option Json)
    (h : db.ready = true) :
    MonoxityDB.get (MonoxityDB.set db true k v).2 k d = .ret (some v) := by
  simp [MonoxityDB.set, MonoxityDB.get, h, lookupRow_upsert_self, Json.parse_enc]

/-- Witness for C1 on a concrete store and a value exercising every
constructor of `Json`. -/
theorem set_get_roundtrip_witness :
    dbEmpty.ready = true ∧
      MonoxityDB.get (MonoxityDB.set dbEmpty true wKey wVal).2 wKey none = .ret (some wVal) :=
  ⟨rfl, set_get_roundtrip dbEmpty wKey wVal none rfl⟩

/- ### C2: the readiness gate -/

/-- C2.  Before `connect` succeeds, every public operation other than
`connect` throws the precondition error at once, without reaching the
storage engine (the result does not depend on the engine flag) and without
changing any state. -/
theorem ops_before_connect_throw (db : MonoxityDB) (wOk dd : Bool) (k : Str)
    (v : Json) (d : Option Json) (lim : Int) (filt : Option JsArg)
    (h : db.ready = false) :
    MonoxityDB.set db wOk k v = (.exn .notReady, db) ∧
    MonoxityDB.get db k d = .exn .notReady ∧
    MonoxityDB.getAll db filt = .exn .notReady ∧
    MonoxityDB.getFirst db lim filt = .exn .notReady ∧
    MonoxityDB.push db wOk k v dd = (.exn .notReady, db) ∧
    MonoxityDB.pull db wOk k v = (.exn .notReady, db) ∧
    MonoxityDB.delete db wOk k = (.exn .notReady, db) ∧
    MonoxityDB.destroy db wOk = (.exn .notReady, db) ∧
    MonoxityDB.rowCount db = .exn .notReady := by
  simp [MonoxityDB.set, MonoxityDB.get, MonoxityDB.getAll, MonoxityDB.getFirst,
    MonoxityDB.push, MonoxityDB.pull, MonoxityDB.delete, MonoxityDB.destroy,
    MonoxityDB.rowCount, h]

/-- Witness for C2 on a concrete unconnected store. -/
theorem ops_before_connect_throw_witness :
    dbFresh.ready = false ∧
      MonoxityDB.set dbFresh true ['k'] (.num 1) = (.exn .notReady, dbFresh) :=
  ⟨rfl, (ops_before_connect_throw dbFresh true false ['k'] (.num 1) none 5 none rfl).1⟩

/- ### C8: delete / destroy success semantics -/

/-- C8.  `delete` returns `true` exactly when the engine accepts the delete
statement — independently of whether any row matched, since the result does
not depend on the table contents — and returns `false` only when the call
errors; `destroy` has the same statement-accepted semantics. -/
theorem delete_destroy_statement_accepted (db : MonoxityDB) (k : Str)
    (h : db.ready = true) :
    (MonoxityDB.delete db true k).1 = .ret true ∧
    (MonoxityDB.delete db false k).1 = .ret false ∧
    (MonoxityDB.destroy db true).1 = .ret true ∧
    (MonoxityDB.destroy db false).1 = .ret false := by
  simp [MonoxityDB.delete, MonoxityDB.destroy, h]

/-- Witness for C8 on a store where zero rows match the deleted key. -/
theorem delete_destroy_statement_accepted_witness :
    dbEmpty.ready = true ∧ (MonoxityDB.delete dbEmpty true ['k']).1 = .ret true :=
  ⟨rfl, (delete_destroy_statement_accepted dbEmpty ['k'] rfl).1⟩

/- ### C5: connect failure handling (code bug) -/

/-- C5 (code bug).  `connect` catches only the `open` failure.  When `open`
succeeds but the `CREATE TABLE` statement is rejected, the rejection has no
`.catch` and propagates to the caller instead of the documented `false`
return; the `success ? true : false` false-branch is unreachable.  An `open`
failure does return the (still false) flag, and the double-success path
returns `true`. -/
theorem connect_create_failure_throws :
    MonoxityDB.connect ⟨false, []⟩ true false = (.exn .engine, ⟨false, []⟩) ∧
    MonoxityDB.connect ⟨false, []⟩ false true = (.ret false, ⟨false, []⟩) ∧
    MonoxityDB.connect ⟨false, []⟩ true true = (.ret true, ⟨true, []⟩) :=
  ⟨rfl, rfl, rfl⟩

/- ### C6: write failure reporting (code bug for push / pull) -/

/-- C6 (code bug for `push`/`pull`).  When the engine rejects the write
statement, `set`, `delete` and `destroy` report `false` as documented, but
`push` and `pull` have no `.catch` on their `run` call, so the rejection
propagates as a thrown error and their `success ? ... : false` false-branch
is unreachable. -/
theorem push_pull_engine_failure_throws :
    (MonoxityDB.push dbEmpty false ['k'] (.num 1) false).1 = .exn .engine ∧
    (MonoxityDB.pull dbSeq false ['k'] (.num 1)).1 = .exn .engine ∧
    (MonoxityDB.set dbEmpty false ['k'] (.num 1)).1 = .ret none ∧
    (MonoxityDB.delete dbEmpty false ['k']).1 = .ret false ∧
    (MonoxityDB.destroy dbEmpty false).1 = .ret false :=
  ⟨rfl, rfl, rfl, rfl, rfl⟩

/- ### C4: pull of an absent value (code bug) -/

/-- C4 (code bug).  `pull(k, v)` computes `splice(indexOf(v), 1)`.  When `v`
is not in the stored sequence, `indexOf` returns `-1` and `splice(-1, 1)`
removes the **last** element instead of being a no-op: pulling the absent
value `4` from `[1, 2, 3]` corrupts the row to `[1, 2]`. -/
theorem pull_missing_value_removes_last :
    MonoxityDB.pull dbSeq true ['k'] (.num 4) =
      (.ret (some (['k'], .num 4)),
        ⟨true, [(['k'], Json.enc (.arr [.num 1, .num 2]))]⟩) := rfl

/- ### C3: push semantics and Set-based deduplication -/

/-- Deep equality is reflexive on primitive values. -/
theorem beq_self_prim (v : Json) (hp : v.isPrim = true) : Json.beq v v = true := by
  cases v <;> simp_all [Json.isPrim, Json.beq]

/-- JS strict equality is reflexive on primitive values on the `push` data
path. -/
theorem jsEq_self (v : Json) (hp : v.isPrim = true) : jsEq v v = true := by
  simp [jsEq, hp, beq_self_prim v hp]

/-- When the value compares equal to itself under strict equality, `Set`
deduplication of the triple collapses it to a single occurrence. -/
theorem setDedup_triple (v : Json) (hp : jsEq v v = true) :
    setDedup [v, v, v] = [v] := by
  simp [setDedup, setDedupGo, hp]

/-- C3 (amended).  On an initialized store with no row at `k`: `push(k, v)`
yields `get(k) = [v]`; pushing `v` again without `destroyDuplicates` yields
`[v, v]`; pushing `v` once more with `destroyDuplicates = true` yields a
sequence containing `v` exactly once **when `v` is primitive** (for arrays
and objects, `new Set` deduplicates by reference, so deep-equal copies all
remain — see the counterexample). -/
theorem push_sequence_amended (db : MonoxityDB) (k : Str) (v : Json)
    (h : db.ready = true) (habs : lookupRow db.rows k = none) :
    MonoxityDB.get (MonoxityDB.push db true k v false).2 k none = .ret (some (.arr [v])) ∧
    MonoxityDB.get (MonoxityDB.push (MonoxityDB.push db true k v false).2 true k v false).2
      k none = .ret (some (.arr [v, v])) ∧
    (v.isPrim = true →
      MonoxityDB.get (MonoxityDB.push (MonoxityDB.push (MonoxityDB.push db true k v false).2
          true k v false).2 true k v true).2 k none = .ret (some (.arr [v]))) ∧
    (v.isPrim = true → countJs [v] v = 1) := by
  have h1 : (MonoxityDB.push db true k v false).2 =
      { db with rows := upsert db.rows k (Json.enc (.arr [v])) } := by
    simp [MonoxityDB.push, MonoxityDB.get, h, habs]
  have h2 : (MonoxityDB.push { db with rows := upsert db.rows k (Json.enc (.arr [v])) }
      true k v false).2 =
      { db with rows := upsert (upsert db.rows k (Json.enc (.arr [v]))) k (Json.enc (.arr [v, v])) } := by
    simp [MonoxityDB.push, MonoxityDB.get, h, lookupRow_upsert_self, Json.parse_enc]
  refine ⟨?_, ?_, ?_, ?_⟩
  · rw [h1]
    simp [MonoxityDB.get, h, lookupRow_upsert_self, Json.parse_enc]
  · rw [h1, h2]
    simp [MonoxityDB.get, h, lookupRow_upsert_self, Json.parse_enc]
  · intro hp
    have h3 : (MonoxityDB.push { db with rows := upsert (upsert db.rows k (Json.enc (.arr [v]))) k (Json.enc (.arr [v, v])) } true k v true).2 =
        { db with rows := upsert (upsert (upsert db.rows k (Json.enc (.arr [v]))) k (Json.enc (.arr [v, v]))) k (Json.enc (.arr [v])) } := by
      simp [MonoxityDB.push, MonoxityDB.get, h, lookupRow_upsert_self, Json.parse_enc,
        setDedup_triple v (jsEq_self v hp)]
    rw [h1, h2, h3]
    simp [MonoxityDB.get, h, lookupRow_upsert_self, Json.parse_enc]
  · intro hp
    simp [countJs, beq_self_prim v hp]

/-- Witness for C3 (amended) with a concrete primitive value. -/
theorem push_sequence_amended_witness :
    dbEmpty.ready = true ∧ lookupRow dbEmpty.rows ['p'] = none ∧
      MonoxityDB.get (MonoxityDB.push dbEmpty true ['p'] (.num 5) false).2 ['p'] none =
        .ret (some (.arr [.num 5])) :=
  ⟨rfl, rfl, (push_sequence_amended dbEmpty ['p'] (.num 5) rfl rfl).1⟩

/-- Counterexample to C3 as stated: for the non-primitive value `[]`,
pushing it twice — the second time with `destroyDuplicates = true` — leaves
a stored sequence that deep-contains the value twice, because `new Set`
compares the freshly parsed element and the pushed argument by reference,
never by deep equality. -/
theorem push_dedup_object_counterexample :
    MonoxityDB.get (MonoxityDB.push (MonoxityDB.push dbEmpty true ['k'] (.arr []) false).2
        true ['k'] (.arr []) true).2 ['k'] none =
      .ret (some (.arr [.arr [], .arr []])) ∧
    countJs [.arr [], .arr []] (.arr []) = 2 := ⟨rfl, rfl⟩

/- ### C7: the getAll filter -/

/-- The empty needle occurs in every haystack. -/
theorem hasSubstr_nil (h : Str) : hasSubstr [] h = true := by
  cases h <;> simp [hasSubstr, beginsWith]

/-- Unfolding of the LIKE matcher at fuel zero. -/
theorem likeMatchF_zero (p s : Str) : likeMatchF 0 p s = false := by
  rw [likeMatchF.eq_def]

/-- Unfolding of the LIKE matcher on two exhausted inputs. -/
theorem likeMatchF_nil_nil (g : Nat) : likeMatchF (g + 1) [] [] = true := by
  rw [likeMatchF.eq_def]

/-- Unfolding of the LIKE matcher on an exhausted pattern. -/
theorem likeMatchF_nil_cons (g : Nat) (c : Char) (t : Str) :
    likeMatchF (g + 1) [] (c :: t) = false := by
  rw [likeMatchF.eq_def]

/-- Unfolding of the LIKE matcher at a `%` wildcard. -/
theorem likeMatchF_pct (g : Nat) (ps s : Str) :
    likeMatchF (g + 1) ('%' :: ps) s =
      (likeMatchF g ps s ||
        match s with
        | [] => false
        | _ :: t => likeMatchF g ('%' :: ps) t) := by
  rw [likeMatchF.eq_def]
  try rfl

/-- Unfolding of the LIKE matcher at a non-`%` pattern character. -/
theorem likeMatchF_lit (g : Nat) (c : Char) (ps s : Str) (hc : ¬(c = '%')) :
    likeMatchF (g + 1) (c :: ps) s =
      (match s with
       | [] => false
       | d :: u => (if c = '_' then true else likeCharEq c d) && likeMatchF g ps u) := by
  rw [likeMatchF.eq_def]
  simp [hc]

/-- A wildcard-free pattern followed by `%` matches exactly the inputs that
begin with the pattern up to ASCII case. -/
theorem likeA : ∀ (fuel : Nat) (f s : Str), wcFree f = true →
    f.length + s.length + 2 ≤ fuel →
    likeMatchF fuel (f ++ ['%']) s = beginsWith (f.map foldChar) (s.map foldChar)
  | 0, f, s, _, hb => by omega
  | fuel + 1, [], s, hw, hb => by
    rw [List.nil_append, likeMatchF_pct]
    cases s with
    | nil =>
      obtain ⟨g, rfl⟩ : ∃ g, fuel = g + 1 := ⟨fuel - 1, by omega⟩
      rw [likeMatchF_nil_nil]
      simp [beginsWith]
    | cons c t =>
      have hz : likeMatchF fuel [] (c :: t) = false := by
        cases fuel with
        | zero => exact likeMatchF_zero _ _
        | succ g => exact likeMatchF_nil_cons g c t
      have ih := likeA fuel [] t hw (by simp at hb ⊢; omega)
      rw [List.nil_append] at ih
      rw [hz]
      simp [ih, beginsWith]
  | fuel + 1, c :: f2, s, hw, hb => by
    have hw2 : wcFree f2 = true ∧ ¬(c = '%') ∧ ¬(c = '_') := by
      simp [wcFree] at hw ⊢
      tauto
    rw [List.cons_append, likeMatchF_lit fuel c (f2 ++ ['%']) s hw2.2.1]
    cases s with
    | nil => simp [beginsWith]
    | cons d u =>
      have ih := likeA fuel f2 u hw2.1 (by simp at hb ⊢; omega)
      simp [ih, beginsWith, hw2.2.2, likeCharEq]

/-- `%pattern%` with a wildcard-free pattern matches exactly the inputs that
contain the pattern as a contiguous substring up to ASCII case. -/
theorem likeB : ∀ (fuel : Nat) (f s : Str), wcFree f = true →
    f.length + s.length + 3 ≤ fuel →
    likeMatchF fuel ('%' :: (f ++ ['%'])) s = hasSubstr (f.map foldChar) (s.map foldChar)
  | 0, f, s, _, hb => by omega
  | fuel + 1, f, s, hw, hb => by
    rw [likeMatchF_pct]
    cases s with
    | nil =>
      rw [likeA fuel f [] hw (by simp at hb ⊢; omega)]
      simp [hasSubstr]
    | cons c t =>
      rw [likeA fuel f (c :: t) hw (by simp at hb ⊢; omega)]
      have ihb := likeB fuel f t hw (by simp at hb ⊢; omega)
      simp [ihb, hasSubstr]

/-- The interpolated `key LIKE '%<f>%'` test used by `getAll` is, for
wildcard-free `f`, exactly ASCII-case-insensitive substring containment. -/
theorem likeMatch_hasSubstr (f s : Str) (hw : wcFree f = true) :
    likeMatch ('%' :: f ++ ['%']) s = hasSubstr (f.map foldChar) (s.map foldChar) := by
  unfold likeMatch
  rw [List.cons_append]
  exact likeB _ f s hw (by simp; omega)

/-- C7 (amended).  With a truthy filter `f` that uses no `LIKE` wildcard
characters and no single quote (the filter is interpolated into the SQL
text unescaped, so a quote derails the statement instead of issuing the
intended query), `getAll` returns exactly the rows whose key contains `f`
as a contiguous substring **up to ASCII case** (SQLite `LIKE` folds
`A`–`Z`), each value JSON-decoded; with no filter it returns every row.
The claim's case-sensitive reading fails — see the counterexample. -/
theorem getAll_filter_amended (db : MonoxityDB) (f : Str)
    (h : db.ready = true) (hw : wcFree f = true) (hq : sqlTextOk f = true) :
    MonoxityDB.getAll db (some (.str f)) =
      decodeRows (db.rows.filter (fun r => hasSubstr (f.map foldChar) (r.1.map foldChar))) ∧
    MonoxityDB.getAll db none = decodeRows db.rows := by
  constructor
  · by_cases hf : f = []
    · subst hf
      have hfil : db.rows.filter
          (fun r => hasSubstr (List.map foldChar []) (r.1.map foldChar)) = db.rows :=
        List.filter_eq_self.mpr (fun a _ => hasSubstr_nil _)
      rw [hfil]
      simp [MonoxityDB.getAll, applyFilter, truthy, h]
    · have htr : truthy (JsArg.str f) = true := by simp [truthy, hf]
      have hfil : ∀ r ∈ db.rows,
          likeMatch ('%' :: argChars (JsArg.str f) ++ ['%']) r.1 =
            hasSubstr (f.map foldChar) (r.1.map foldChar) := fun r _ =>
        likeMatch_hasSubstr f r.1 hw
      simp only [MonoxityDB.getAll, applyFilter, h, htr, if_true]
      rw [show sqlTextOk (argChars (JsArg.str f)) = true from hq]
      simp only [if_true]
      rw [List.filter_congr hfil]
  · simp [MonoxityDB.getAll, applyFilter, h]

/-- Witness for C7 (amended) on the specification's three-row example store. -/
theorem getAll_filter_amended_witness :
    wcFree ['a', 'b', 'c'] = true ∧ sqlTextOk ['a', 'b', 'c'] = true ∧
      MonoxityDB.getAll dbKeys (some (.str ['a', 'b', 'c'])) =
        decodeRows (dbKeys.rows.filter
          (fun r => hasSubstr (['a', 'b', 'c'].map foldChar) (r.1.map foldChar))) :=
  ⟨rfl, rfl, (getAll_filter_amended dbKeys ['a', 'b', 'c'] rfl rfl rfl).1⟩

/-- Counterexample to C7 as stated: `getAll("abc")` also returns the row
with key `xABCx`, whose key does **not** contain `abc` as a substring —
SQLite `LIKE` is case-insensitive for ASCII letters. -/
theorem getAll_filter_case_counterexample :
    MonoxityDB.getAll dbKeys (some (.str ['a', 'b', 'c'])) =
      .ret [(['a', 'b', 'c'], .num 1), (['x', 'A', 'B', 'C', 'x'], .num 2)] ∧
    hasSubstr ['a', 'b', 'c'] ['x', 'A', 'B', 'C', 'x'] = false := ⟨rfl, rfl⟩

/- ### C9: falsy filters -/

/-- C9.  A falsy filter argument — the number `0` or the empty string — is
treated by the `key ? LIKE-query : plain-query` check exactly like an
omitted filter: `getAll` returns every row (JSON-decoded), and `getFirst`
behaves as with no filter. -/
theorem falsy_filter_returns_all (db : MonoxityDB) (lim : Int) (h : db.ready = true) :
    MonoxityDB.getAll db (some (.num 0)) = decodeRows db.rows ∧
    MonoxityDB.getAll db (some (.str [])) = decodeRows db.rows ∧
    MonoxityDB.getAll db none = decodeRows db.rows ∧
    MonoxityDB.getFirst db lim (some (.num 0)) = MonoxityDB.getFirst db lim none ∧
    MonoxityDB.getFirst db lim (some (.str [])) = MonoxityDB.getFirst db lim none := by
  simp [MonoxityDB.getAll, MonoxityDB.getFirst, applyFilter, truthy, h]

/-- Witness for C9 on the three-row store. -/
theorem falsy_filter_returns_all_witness :
    dbKeys.ready = true ∧ MonoxityDB.getAll dbKeys (some (.num 0)) = decodeRows dbKeys.rows :=
  ⟨rfl, (falsy_filter_returns_all dbKeys 3 rfl).1⟩

/- ### C10: frame property of single-key mutations -/

/-- The state after a `push` either is unchanged or differs from the prior
state only by an upsert at the pushed key. -/
theorem push_rows (db : MonoxityDB) (wOk : Bool) (k : Str) (v : Json) (dd : Bool) :
    (MonoxityDB.push db wOk k v dd).2 = db ∨
      ∃ s, (MonoxityDB.push db wOk k v dd).2 = { db with rows := upsert db.rows k s } := by
  unfold MonoxityDB.push
  by_cases h : db.ready = true
  · simp only [h, if_true]
    cases hget : MonoxityDB.get db k (some (.arr [])) with
    | exn e => exact .inl rfl
    | ret cur =>
      cases cur with
      | none => exact .inl rfl
      | some x =>
        cases x with
        | arr elems =>
          cases wOk with
          | true => exact .inr ⟨_, rfl⟩
          | false => exact .inl rfl
        | null => exact .inl rfl
        | bool b => exact .inl rfl
        | num n => exact .inl rfl
        | str s2 => exact .inl rfl
        | obj m => exact .inl rfl
  · simp [h]

/-- The state after a `pull` either is unchanged or differs from the prior
state only by an upsert at the pulled key. -/
theorem pull_rows (db : MonoxityDB) (wOk : Bool) (k : Str) (v : Json) :
    (MonoxityDB.pull db wOk k v).2 = db ∨
      ∃ s, (MonoxityDB.pull db wOk k v).2 = { db with rows := upsert db.rows k s } := by
  unfold MonoxityDB.pull
  by_cases h : db.ready = true
  · simp only [h, if_true]
    cases hget : MonoxityDB.get db k (some (.arr [])) with
    | exn e => exact .inl rfl
    | ret cur =>
      cases cur with
      | none => exact .inl rfl
      | some x =>
        cases x with
        | arr elems =>
          cases wOk with
          | true => exact .inr ⟨_, rfl⟩
          | false => exact .inl rfl
        | null => exact .inl rfl
        | bool b => exact .inl rfl
        | num n => exact .inl rfl
        | str s2 => exact .inl rfl
        | obj m => exact .inl rfl
  · simp [h]

/-- C10.  Each single-key mutation — `set`, `push`, `pull`, `delete` at key
`k`, whatever the engine outcome and flags — leaves the row at every other
key `k2` unchanged: `get(k2)` returns the same answer before and after. -/
theorem mutations_preserve_other_keys (db : MonoxityDB) (wOk dd : Bool) (k k2 : Str)
    (v : Json) (d : Option Json) (hk : k2 ≠ k) (h : db.ready = true) :
    MonoxityDB.get (MonoxityDB.set db wOk k v).2 k2 d = MonoxityDB.get db k2 d ∧
    MonoxityDB.get (MonoxityDB.push db wOk k v dd).2 k2 d = MonoxityDB.get db k2 d ∧
    MonoxityDB.get (MonoxityDB.pull db wOk k v).2 k2 d = MonoxityDB.get db k2 d ∧
    MonoxityDB.get (MonoxityDB.delete db wOk k).2 k2 d = MonoxityDB.get db k2 d := by
  refine ⟨?_, ?_, ?_, ?_⟩
  · cases wOk with
    | true =>
      apply get_rows_congr
      · simp [MonoxityDB.set, h]
      · simp [MonoxityDB.set, h, lookupRow_upsert_other db.rows k k2 _ hk]
    | false => simp [MonoxityDB.set, h]
  · rcases push_rows db wOk k v dd with he | ⟨s, he⟩
    · rw [he]
    · rw [he]
      apply get_rows_congr
      · rfl
      · exact lookupRow_upsert_other db.rows k k2 s hk
  · rcases pull_rows db wOk k v with he | ⟨s, he⟩
    · rw [he]
    · rw [he]
      apply get_rows_congr
      · rfl
      · exact lookupRow_upsert_other db.rows k k2 s hk
  · cases wOk with
    | true =>
      apply get_rows_congr
      · simp [MonoxityDB.delete, h]
      · simp [MonoxityDB.delete, h, delByKey, lookupRow_filter_ne db.rows k k2 hk]
    | false => simp [MonoxityDB.delete, h]

/-- Witness for C10: a `set` at one key does not disturb the row at another. -/
theorem mutations_preserve_other_keys_witness :
    (['k'] : Str) ≠ (['z'] : Str) ∧ dbFresh.rows ≠ [] ∧
      MonoxityDB.get (MonoxityDB.set ⟨true, dbFresh.rows⟩ true ['z'] (.num 9)).2 ['k'] none =
        MonoxityDB.get ⟨true, dbFresh.rows⟩ ['k'] none :=
  ⟨by decide, by decide,
    (mutations_preserve_other_keys ⟨true, dbFresh.rows⟩ true false ['z'] ['k']
      (.num 9) none (by decide) rfl).1⟩
